import Mathlib

/-!
A verification development for the nec2 card-stack generator (`nec2utils.py`).

The Python module builds antenna geometry decks for the NEC2 solver.  We give a
shallow embedding: real-valued quantities are modelled as rationals (Python
floats are binary rationals; no claim below depends on binary rounding of
arithmetic), records ("cards") are modelled by the inductive `Card` holding the
fields each Python card function receives, and the fixed-column rendering of a
card to text is `render`, built from the field formatters `dec` and `sci`
translated from the corresponding Python functions.  The mutable `Model` object
is a structure, and each method is a function from the structure to the
structure (Python methods mutate `self` and return it for chaining; `getText`
reads `self` without mutating, so it returns the unchanged state alongside the
deck).
-/

namespace Nec2

/-! ### Decimal digit strings

Helpers for the decimal renderings produced by Python string formatting.
`digitsRev` extracts base-10 digits little-endian by repeated division, with a
fuel argument so the recursion is structural; fuel `n` is always enough for `n`.
-/

def digitsRev : ℕ → ℕ → List ℕ
  | 0, _ => []
  | fuel + 1, n => if n = 0 then [] else n % 10 :: digitsRev fuel (n / 10)

/-- The decimal digit characters of `n`, most significant first; `0` renders
as `"0"`, as in Python. -/
def natChars (n : ℕ) : List Char :=
  if n = 0 then ['0'] else ((digitsRev n n).map Nat.digitChar).reverse

/-- `math.trunc` on a rational: truncation toward zero.  A rational stores a
reduced numerator and positive denominator, and `Int.tdiv` is the
toward-zero division. -/
def ratTrunc (q : ℚ) : ℤ := q.num.tdiv q.den

/-- Left-pad a character list with spaces to width `w` (the effect of fill
`' '` with alignment `>` in a Python format spec; never shortens). -/
def padChars (w : ℕ) (l : List Char) : List Char :=
  List.replicate (w - l.length) ' ' ++ l

/-- Field formatter `dec(i)`, Python `'{: >6d}'.format(math.trunc(i))`.  In
that format spec the space is the fill character and `>` the alignment (there
is no sign option), so the rendering is the truncated integer's digits, with a
`'-'` prefix only when it is negative, right-justified with space fill in a
field of minimum width 6. -/
def decChars (q : ℚ) : List Char :=
  padChars 6 (if ratTrunc q < 0
    then '-' :: natChars (ratTrunc q).natAbs
    else natChars (ratTrunc q).natAbs)

def dec (q : ℚ) : String := ⟨decChars q⟩

/-- Round to the nearest integer, ties to even: the rounding Python's
float-to-`%.5E`-string conversion applies to the (exact) value being
formatted. -/
def rne (q : ℚ) : ℤ :=
  if q - ⌊q⌋ < 1/2 then ⌊q⌋
  else if 1/2 < q - ⌊q⌋ then ⌊q⌋ + 1
  else if ⌊q⌋ % 2 = 0 then ⌊q⌋ else ⌊q⌋ + 1

/-- Exponent suffix of Python `%.5E` output: an explicit sign followed by the
exponent's digits, zero-padded to at least two digits. -/
def expChars (e : ℤ) : List Char :=
  (if e < 0 then '-' else '+') ::
    (if e.natAbs < 10 then '0' :: natChars e.natAbs else natChars e.natAbs)

/-- `"d.ddddd"` from a six-digit mantissa `M` (`10^5 ≤ M < 10^6`). -/
def sciMantissaChars (M : ℕ) : List Char :=
  (natChars M).take 1 ++ '.' :: (natChars M).drop 1

/-- Field formatter `sci(f)`, Python `'{: > 13.5E}'.format(f)`: sign position
(`' '` or `'-'`), normalized mantissa `d.ddddd` rounded to five fractional
digits, `E`, signed two-or-more-digit exponent, right-justified in a field of
minimum width 13. -/
def sciChars (q : ℚ) : List Char :=
  padChars 13 ((if q < 0 then '-' else ' ') ::
    (if q = 0 then ['0', '.', '0', '0', '0', '0', '0', 'E', '+', '0', '0']
     else
       let e := Int.log 10 |q|
       let M := rne (|q| * 10 ^ ((5 : ℤ) - e))
       let M' := if M = 10 ^ 6 then (10 ^ 5 : ℤ) else M
       let e' := if M = 10 ^ 6 then e + 1 else e
       sciMantissaChars M'.toNat ++ 'E' :: expChars e'))

def sci (q : ℚ) : String := ⟨sciChars q⟩

/-! ### Points, rotations, and cards -/

/-- 3D point (class `Point`); coordinates in meters. -/
structure Point where
  x : ℚ
  y : ℚ
  z : ℚ
deriving DecidableEq

/-- 3D rotation (class `Rotation`); axis angles in degrees. -/
structure Rotation where
  rx : ℚ
  ry : ℚ
  rz : ℚ
deriving DecidableEq

/-- One nec2 card, holding exactly the variable fields the corresponding
Python card function receives (`Model.gw`, `Model.gh`, `Model.ga`, `Model.gm`,
`Model.ge`, `Model.fr`, `Model.ex`, `Model.rp`, `Model.en`); the constant
fields those functions hard-code appear in `render`. -/
inductive Card where
  | gw (tag segments : ℤ) (x1 y1 z1 x2 y2 z2 radius : ℚ)
  | gh (tag segments : ℤ) (pitch height xzr1 yzr1 xzr2 yzr2 wireRadius : ℚ)
  | ga (tag segments : ℤ) (arcRadius startAngle endAngle wireRadius : ℚ)
  | gm (rotX rotY rotZ trX trY trZ : ℚ) (firstTag : ℤ)
  | ge
  | fr (start stepSize stepCount : ℚ)
  | ex (tag segment : ℤ)
  | rp
  | en
deriving DecidableEq

/-- Fixed-column text of one card, exactly as the Python card functions build
it by string concatenation. -/
def render : Card → String
  | .gw tag segments x1 y1 z1 x2 y2 z2 radius =>
      ⟨'G' :: 'W' :: (decChars tag ++ decChars segments ++
        sciChars x1 ++ sciChars y1 ++ sciChars z1 ++
        sciChars x2 ++ sciChars y2 ++ sciChars z2 ++
        sciChars radius ++ ['\n'])⟩
  | .gh tag segments pitch height xzr1 yzr1 xzr2 yzr2 wireRadius =>
      ⟨'G' :: 'H' :: (decChars tag ++ decChars segments ++
        sciChars pitch ++ sciChars height ++
        sciChars xzr1 ++ sciChars yzr1 ++ sciChars xzr2 ++ sciChars yzr2 ++
        sciChars wireRadius ++ ['\n'])⟩
  | .ga tag segments arcRadius startAngle endAngle wireRadius =>
      -- notUsed = 0.0; three trailing unused fields
      ⟨'G' :: 'A' :: (decChars tag ++ decChars segments ++
        sciChars arcRadius ++ sciChars startAngle ++ sciChars endAngle ++
        sciChars wireRadius ++ sciChars 0 ++ sciChars 0 ++ sciChars 0 ++ ['\n'])⟩
  | .gm rotX rotY rotZ trX trY trZ firstTag =>
      -- tagIncrement = 0, newStructures = 0; firstTag rendered via sci (firstTag*1.0)
      ⟨'G' :: 'M' :: (decChars 0 ++ decChars 0 ++
        sciChars rotX ++ sciChars rotY ++ sciChars rotZ ++
        sciChars trX ++ sciChars trY ++ sciChars trZ ++
        sciChars (firstTag : ℚ) ++ ['\n'])⟩
  | .ge =>
      -- GPFLAG = 0 (no ground plane)
      ⟨'G' :: 'E' :: (decChars 0 ++ decChars 0 ++ sciChars 0 ++ sciChars 0 ++
        sciChars 0 ++ sciChars 0 ++ sciChars 0 ++ sciChars 0 ++ sciChars 0 ++ ['\n'])⟩
  | .fr start stepSize stepCount =>
      -- IFRQ = 0 (linear stepping), NFRQ = stepCount, I3 = I4 = 0
      ⟨'F' :: 'R' :: (decChars 0 ++ decChars stepCount ++ decChars 0 ++ decChars 0 ++
        sciChars start ++ sciChars stepSize ++ ['\n'])⟩
  | .ex tag segment =>
      -- I1 = 0 (applied-E-field source), I4 = 0, F1 = 1.0, F2 = 0.0
      ⟨'E' :: 'X' :: (decChars 0 ++ decChars (tag : ℚ) ++ decChars (segment : ℚ) ++
        decChars 0 ++ sciChars 1 ++ sciChars 0 ++ sciChars 0 ++ sciChars 0 ++
        sciChars 0 ++ sciChars 0 ++ ['\n'])⟩
  | .rp =>
      -- I1 = 0, NTH = NPH = 37, I4 = 0, THETS = PHIS = 0.0, DTH = DPH = 10.0
      ⟨'R' :: 'P' :: (decChars 0 ++ decChars 37 ++ decChars 37 ++ decChars 0 ++
        sciChars 0 ++ sciChars 0 ++ sciChars 10 ++ sciChars 10 ++ ['\n'])⟩
  | .en => "EN\n"

/-- Tag of a primitive geometry record (`GW`, `GA`, `GH`), if any. -/
def Card.primTag : Card → Option ℤ
  | .gw tag .. => some tag
  | .ga tag .. => some tag
  | .gh tag .. => some tag
  | _ => none

/-- First-tag field of a transform (`GM`) record, if any. -/
def Card.gmTag : Card → Option ℤ
  | .gm _ _ _ _ _ _ firstTag => some firstTag
  | _ => none

/-! ### The Model class -/

/-- The exact rational value of the binary64 constant `math.pi` used by
`addHelix` (`884279719003555 / 2^48`). -/
def mathPi : ℚ := 884279719003555 / 281474976710656

/-- The `properties` dictionary passed to `addHelix`: the keys it reads are
`'length'` and `'height'` (callers also pass a `'turns'` key, which `addHelix`
never reads). -/
structure HelixProps where
  length : ℚ
  height : ℚ
deriving DecidableEq

/-- The `Model` aggregate.  The text buffers `wires`, `transforms` and
`transformBuffer` are kept as lists of structured cards; their Python string
contents are the concatenation of the renders, restored by `getText`.
Note: in Python `middle` does not exist until the first append assigns it
(reading it earlier is an `AttributeError`); we initialize it to `0`, and every
claim involving `middle` concerns only states after at least one append. -/
structure Model where
  wires : List Card
  transforms : List Card
  transformBuffer : List Card
  wireRadius : ℚ
  tag : ℤ
  EX_tag : ℤ
  EX_segment : ℤ
  endpoint : Point
  velocityfactor : ℚ
  wavelength : Option ℚ
  frequency : Option ℚ
  middle : ℤ
deriving DecidableEq

/-- Python truthiness of an optional float: `None` and `0.0` are falsy. -/
def truthy : Option ℚ → Bool
  | none => false
  | some x => x != 0

/-- `Model.__init__(wireRadius, wavelength=None, frequency=None,
velocityfactor=1.0)`.  The wavelength/frequency pair follows the source's
truthiness-guarded derivation; `getD 0` extracts the value of an option the
guard has established to be a truthy `some`. -/
def mkModel (wireRadius : ℚ) (wavelength : Option ℚ := none)
    (frequency : Option ℚ := none) (velocityfactor : ℚ := 1) : Model :=
  let wf : Option ℚ × Option ℚ :=
    if truthy wavelength && truthy frequency then
      (wavelength, frequency)
    else if truthy wavelength then
      (wavelength, some (velocityfactor * 3e8 / wavelength.getD 0))
    else if truthy frequency then
      (some (velocityfactor * 3e8 / frequency.getD 0), frequency)
    else
      (none, none)
  { wires := []
    transforms := []
    transformBuffer := []
    wireRadius := wireRadius
    tag := 0
    EX_tag := 0
    EX_segment := 0
    endpoint := ⟨0, 0, 0⟩
    velocityfactor := velocityfactor
    wavelength := wf.1
    frequency := wf.2
    middle := 0 }

/-- `Model.flushTransformBuffer`: move the pending transforms to the permanent
transform stream. -/
def Model.flushTransformBuffer (m : Model) : Model :=
  { m with transforms := m.transforms ++ m.transformBuffer, transformBuffer := [] }

/-- `Model.addWire(segments, pt1, pt2)`.  `middle` is
`math.trunc(segments/2) + 1`; the sources run on Python 2, where `/` on
integers is floor division, hence `Int.fdiv`. -/
def Model.addWire (m : Model) (segments : ℤ) (pt1 pt2 : Point) : Model :=
  let tag := m.tag + 1
  let m1 := { m with
    tag := tag
    wires := m.wires ++
      [Card.gw tag segments pt1.x pt1.y pt1.z pt2.x pt2.y pt2.z m.wireRadius] }
  let m2 := m1.flushTransformBuffer
  { m2 with middle := Int.fdiv segments 2 + 1, endpoint := pt2 }

/-- `Model.addArc(segments, radius, start, end, rotate, translate)`: emit the
GA card, flush the pending transforms, append the placement GM (tagged with
this arc's tag), and queue the four restoration GMs (tagged one past it). -/
def Model.addArc (m : Model) (segments : ℤ) (radius startAngle endAngle : ℚ)
    (rotate : Rotation) (translate : Point) : Model :=
  let tag := m.tag + 1
  let m1 := { m with
    tag := tag
    wires := m.wires ++ [Card.ga tag segments radius startAngle endAngle m.wireRadius] }
  let m2 := m1.flushTransformBuffer
  { m2 with
    middle := Int.fdiv segments 2 + 1
    transforms := m2.transforms ++
      [Card.gm rotate.rx rotate.ry rotate.rz translate.x translate.y translate.z tag]
    transformBuffer :=
      [Card.gm 0 0 0 (-translate.x) (-translate.y) (-translate.z) (tag + 1),
       Card.gm 0 0 (-rotate.rz) 0 0 0 (tag + 1),
       Card.gm 0 (-rotate.ry) 0 0 0 0 (tag + 1),
       Card.gm (-rotate.rx) 0 0 0 0 0 (tag + 1)] }

/-- `Model.addHelix(segments, pt1, properties, rotate, translate)`: same shape
as `addArc` with a GH card; the helix radius is
`properties['length'] / math.pi / 2`, and `properties['height']` is used for
both pitch and height.  `pt1` is accepted and ignored, as in the source. -/
def Model.addHelix (m : Model) (segments : ℤ) (pt1 : Point) (properties : HelixProps)
    (rotate : Rotation) (translate : Point) : Model :=
  let tag := m.tag + 1
  let hr := properties.length / mathPi / 2
  let height := properties.height
  let pitch := properties.height
  let m1 := { m with
    tag := tag
    wires := m.wires ++ [Card.gh tag segments pitch height hr hr hr hr m.wireRadius] }
  let m2 := m1.flushTransformBuffer
  { m2 with
    transforms := m2.transforms ++
      [Card.gm rotate.rx rotate.ry rotate.rz translate.x translate.y translate.z tag]
    transformBuffer :=
      [Card.gm 0 0 0 (-translate.x) (-translate.y) (-translate.z) (tag + 1),
       Card.gm 0 0 (-rotate.rz) 0 0 0 (tag + 1),
       Card.gm 0 (-rotate.ry) 0 0 0 0 (tag + 1),
       Card.gm (-rotate.rx) 0 0 0 0 0 (tag + 1)]
    middle := Int.fdiv segments 2 + 1 }

/-- `Model.feedAtMiddle`. -/
def Model.feedAtMiddle (m : Model) : Model :=
  { m with EX_tag := m.tag, EX_segment := m.middle }

/-- `Model.feedAtStart`. -/
def Model.feedAtStart (m : Model) : Model :=
  { m with EX_tag := m.tag, EX_segment := 1 }

/-- `Model.getText(start, stepSize, stepCount)` at the card level: the deck is
the wires buffer, then the transforms buffer (the pending `transformBuffer` is
NOT flushed), then the footer `GE`, `EX`, `FR`, `RP`, `EN`.  The method reads
`self` without assigning to it, so the state comes back unchanged. -/
def Model.getTextCards (m : Model) (start stepSize stepCount : ℚ) :
    List Card × Model :=
  (m.wires ++ m.transforms ++
    [Card.ge, Card.ex m.EX_tag m.EX_segment,
     Card.fr start stepSize stepCount, Card.rp, Card.en], m)

/-- `Model.getText` as text: the concatenated renders of the deck cards. -/
def Model.getText (m : Model) (start stepSize stepCount : ℚ) : String × Model :=
  (String.join (((m.getTextCards start stepSize stepCount).1).map render), m)

/-! ### Append-call sequences

A value of `Op` is one call to an append entry point with its arguments;
`applyOps` runs a sequence of such calls, which is how the claims about
arbitrary call sequences are stated. -/

inductive Op where
  | wire (segments : ℤ) (pt1 pt2 : Point)
  | arc (segments : ℤ) (radius startAngle endAngle : ℚ)
      (rotate : Rotation) (translate : Point)
  | helix (segments : ℤ) (pt1 : Point) (properties : HelixProps)
      (rotate : Rotation) (translate : Point)
deriving DecidableEq

def applyOp (m : Model) : Op → Model
  | .wire segments pt1 pt2 => m.addWire segments pt1 pt2
  | .arc segments radius startAngle endAngle rotate translate =>
      m.addArc segments radius startAngle endAngle rotate translate
  | .helix segments pt1 properties rotate translate =>
      m.addHelix segments pt1 properties rotate translate

def Model.applyOps (m : Model) (ops : List Op) : Model :=
  ops.foldl applyOp m

/-- The segment count an append call passes. -/
def Op.segments : Op → ℤ
  | .wire segments _ _ => segments
  | .arc segments _ _ _ _ _ => segments
  | .helix segments _ _ _ _ => segments

def Op.isArcOrHelix : Op → Bool
  | .wire _ _ _ => false
  | .arc _ _ _ _ _ _ => true
  | .helix _ _ _ _ _ => true

/-- The primitive record an append call emits when it is given tag `tag` on a
model with the given wire radius. -/
def Op.primCard (o : Op) (tag : ℤ) (wireRadius : ℚ) : Card :=
  match o with
  | .wire segments pt1 pt2 =>
      .gw tag segments pt1.x pt1.y pt1.z pt2.x pt2.y pt2.z wireRadius
  | .arc segments radius startAngle endAngle _ _ =>
      .ga tag segments radius startAngle endAngle wireRadius
  | .helix segments _ properties _ _ =>
      .gh tag segments properties.height properties.height
        (properties.length / mathPi / 2) (properties.length / mathPi / 2)
        (properties.length / mathPi / 2) (properties.length / mathPi / 2) wireRadius

/-- The placement transform records an append call adds to the permanent
transform stream (none for a wire; the placement GM for arc/helix). -/
def Op.placements (o : Op) (tag : ℤ) : List Card :=
  match o with
  | .wire _ _ _ => []
  | .arc _ _ _ _ rotate translate =>
      [.gm rotate.rx rotate.ry rotate.rz translate.x translate.y translate.z tag]
  | .helix _ _ _ rotate translate =>
      [.gm rotate.rx rotate.ry rotate.rz translate.x translate.y translate.z tag]

/-- The restoration transform records an append call leaves queued in the
deferred buffer, tagged `nextTag` (= its own tag + 1). -/
def Op.restorations (o : Op) (nextTag : ℤ) : List Card :=
  match o with
  | .wire _ _ _ => []
  | .arc _ _ _ _ rotate translate =>
      [.gm 0 0 0 (-translate.x) (-translate.y) (-translate.z) nextTag,
       .gm 0 0 (-rotate.rz) 0 0 0 nextTag,
       .gm 0 (-rotate.ry) 0 0 0 0 nextTag,
       .gm (-rotate.rx) 0 0 0 0 0 nextTag]
  | .helix _ _ _ rotate translate =>
      [.gm 0 0 0 (-translate.x) (-translate.y) (-translate.z) nextTag,
       .gm 0 0 (-rotate.rz) 0 0 0 nextTag,
       .gm 0 (-rotate.ry) 0 0 0 0 nextTag,
       .gm (-rotate.rx) 0 0 0 0 0 nextTag]

/-- `Before xs a b`: some occurrence of card `a` appears strictly before some
occurrence of card `b` in the list `xs`. -/
def Before (xs : List Card) (a b : Card) : Prop :=
  ∃ i, i < xs.length ∧ ∃ j, j < xs.length ∧
    i < j ∧ xs.get? i = some a ∧ xs.get? j = some b

instance (xs : List Card) (a b : Card) : Decidable (Before xs a b) := by
  unfold Before
  infer_instance

/-- The tag discipline every reachable model state satisfies: the wires buffer
holds no transform records, every transform in the permanent stream refers to
an already-assigned tag, and every queued restoration refers to exactly one tag
past the current one. -/
def TagInv (m : Model) : Prop :=
  (∀ c ∈ m.wires, c.gmTag = none) ∧
  (∀ c ∈ m.transforms, ∀ t, c.gmTag = some t → t ≤ m.tag) ∧
  (∀ c ∈ m.transformBuffer, ∀ t, c.gmTag = some t → t = m.tag + 1)

/-! ### Unit conversion: AWG

`AWG(n)` type-checks its argument (a Python `float` is rejected even when its
value is integral), range-checks it against `range(-3, 41)`, and returns the
wire **diameter** in meters.  A Python number is either an `int` or a `float`;
`PyNum` distinguishes the two. -/

inductive PyNum where
  | int (n : ℤ)
  | float (x : ℚ)
deriving DecidableEq

def PyNum.isFloat : PyNum → Bool
  | .int _ => false
  | .float _ => true

/-- `AWG(n)`: `TypeError` for a non-`int`, `ValueError` outside `[-3, 40]`,
otherwise `exp(2.1104 - 0.11594*n) * 1e-3`. -/
noncomputable def AWG : PyNum → Except String ℝ
  | .float _ => .error "AWG must be an integer"
  | .int n =>
      if n < -3 ∨ 40 < n then .error "AWG must be from -3 to 40"
      else .ok (Real.exp (2.1104 - 0.11594 * (n : ℝ)) * 1e-3)

/-! ### Effect of one append call on the model state -/

theorem applyOp_tag (m : Model) (o : Op) : (applyOp m o).tag = m.tag + 1 := by
  cases o <;>
    simp [applyOp, Model.addWire, Model.addArc, Model.addHelix, Model.flushTransformBuffer]

theorem applyOp_wires (m : Model) (o : Op) :
    (applyOp m o).wires = m.wires ++ [o.primCard (m.tag + 1) m.wireRadius] := by
  cases o <;>
    simp [applyOp, Model.addWire, Model.addArc, Model.addHelix, Model.flushTransformBuffer,
      Op.primCard]

theorem applyOp_transforms (m : Model) (o : Op) :
    (applyOp m o).transforms = m.transforms ++ m.transformBuffer ++ o.placements (m.tag + 1) := by
  cases o <;>
    simp [applyOp, Model.addWire, Model.addArc, Model.addHelix, Model.flushTransformBuffer,
      Op.placements]

theorem applyOp_transformBuffer (m : Model) (o : Op) :
    (applyOp m o).transformBuffer = o.restorations (m.tag + 2) := by
  cases o <;>
    simp [applyOp, Model.addWire, Model.addArc, Model.addHelix, Model.flushTransformBuffer,
      Op.restorations] <;>
    omega

theorem applyOp_wireRadius (m : Model) (o : Op) : (applyOp m o).wireRadius = m.wireRadius := by
  cases o <;>
    simp [applyOp, Model.addWire, Model.addArc, Model.addHelix, Model.flushTransformBuffer]

theorem applyOp_EX_tag (m : Model) (o : Op) : (applyOp m o).EX_tag = m.EX_tag := by
  cases o <;>
    simp [applyOp, Model.addWire, Model.addArc, Model.addHelix, Model.flushTransformBuffer]

theorem applyOp_EX_segment (m : Model) (o : Op) : (applyOp m o).EX_segment = m.EX_segment := by
  cases o <;>
    simp [applyOp, Model.addWire, Model.addArc, Model.addHelix, Model.flushTransformBuffer]

theorem applyOp_middle (m : Model) (o : Op) :
    (applyOp m o).middle = Int.fdiv o.segments 2 + 1 := by
  cases o <;>
    simp [applyOp, Model.addWire, Model.addArc, Model.addHelix, Model.flushTransformBuffer,
      Op.segments]

/-! ### Effect of a sequence of append calls -/

theorem applyOps_nil (m : Model) : m.applyOps [] = m := rfl

theorem applyOps_cons (m : Model) (o : Op) (ops : List Op) :
    m.applyOps (o :: ops) = (applyOp m o).applyOps ops := rfl

theorem applyOps_append (m : Model) (l l' : List Op) :
    m.applyOps (l ++ l') = (m.applyOps l).applyOps l' :=
  List.foldl_append _ _ _ _

theorem applyOps_tag (ops : List Op) : ∀ m : Model,
    (m.applyOps ops).tag = m.tag + ops.length := by
  induction ops with
  | nil => intro m; simp [applyOps_nil]
  | cons o t ih =>
    intro m
    rw [applyOps_cons, ih, applyOp_tag]
    simp only [List.length_cons]
    push_cast
    ring

theorem applyOps_wireRadius (ops : List Op) : ∀ m : Model,
    (m.applyOps ops).wireRadius = m.wireRadius := by
  induction ops with
  | nil => intro m; simp [applyOps_nil]
  | cons o t ih => intro m; rw [applyOps_cons, ih, applyOp_wireRadius]

theorem applyOps_EX_tag (ops : List Op) : ∀ m : Model,
    (m.applyOps ops).EX_tag = m.EX_tag := by
  induction ops with
  | nil => intro m; simp [applyOps_nil]
  | cons o t ih => intro m; rw [applyOps_cons, ih, applyOp_EX_tag]

theorem applyOps_EX_segment (ops : List Op) : ∀ m : Model,
    (m.applyOps ops).EX_segment = m.EX_segment := by
  induction ops with
  | nil => intro m; simp [applyOps_nil]
  | cons o t ih => intro m; rw [applyOps_cons, ih, applyOp_EX_segment]

theorem primTag_primCard (o : Op) (t : ℤ) (r : ℚ) : (o.primCard t r).primTag = some t := by
  cases o <;> rfl

theorem applyOps_primTags (ops : List Op) : ∀ m : Model,
    (m.applyOps ops).wires.filterMap Card.primTag
      = m.wires.filterMap Card.primTag
        ++ (List.range ops.length).map ((fun i => m.tag + 1 + (i : ℤ)) : ℕ → ℤ) := by
  induction ops with
  | nil => intro m; simp [applyOps_nil]
  | cons o t ih =>
    intro m
    rw [applyOps_cons, ih, applyOp_wires, applyOp_tag]
    simp only [List.length_cons]
    rw [List.filterMap_append, List.range_succ_eq_map]
    simp only [List.filterMap_cons, primTag_primCard, List.filterMap_nil,
      List.map_cons, List.map_map, List.length_cons]
    have h : ((fun i => m.tag + 1 + 1 + (i : ℤ)) : ℕ → ℤ)
        = ((fun i => m.tag + 1 + (i : ℤ)) : ℕ → ℤ) ∘ Nat.succ := by
      funext i
      simp [Function.comp]
      ring
    rw [List.append_assoc]
    simp [h]

/-- C1: for every sequence of `k` append calls on a freshly constructed
`Model` (any mix of wires, arcs, helices), the tags carried by the emitted
primitive records are exactly `1, 2, ..., k` in call order - no tag is reused
or skipped, regardless of element kind. -/
theorem C1_tags_sequential (wr : ℚ) (wl fr : Option ℚ) (vf : ℚ) (ops : List Op) :
    ((mkModel wr wl fr vf).applyOps ops).wires.filterMap Card.primTag
      = (List.range ops.length).map ((fun i => (i : ℤ) + 1) : ℕ → ℤ) := by
  rw [applyOps_primTags]
  have h1 : (mkModel wr wl fr vf).wires = [] := rfl
  have h2 : (mkModel wr wl fr vf).tag = 0 := rfl
  rw [h1, h2]
  simp only [List.filterMap_nil, List.nil_append]
  have h : ((fun i => (0 : ℤ) + 1 + (i : ℤ)) : ℕ → ℤ)
      = ((fun i => (i : ℤ) + 1) : ℕ → ℤ) := by
    funext i
    ring
  rw [h]

/-! ### The tag discipline invariant (for C2) -/

theorem gmTag_primCard (o : Op) (t : ℤ) (r : ℚ) : (o.primCard t r).gmTag = none := by
  cases o <;> rfl

theorem gmTag_placements (o : Op) (t : ℤ) : ∀ c ∈ o.placements t, c.gmTag = some t := by
  cases o <;> simp [Op.placements, Card.gmTag]

theorem gmTag_restorations (o : Op) (t : ℤ) : ∀ c ∈ o.restorations t, c.gmTag = some t := by
  cases o <;> simp [Op.restorations, Card.gmTag]

theorem tagInv_mkModel (wr : ℚ) (wl fr : Option ℚ) (vf : ℚ) :
    TagInv (mkModel wr wl fr vf) := by
  refine ⟨?_, ?_, ?_⟩ <;> intro c hc <;> simp [mkModel] at hc

theorem tagInv_applyOp (m : Model) (o : Op) (h : TagInv m) : TagInv (applyOp m o) := by
  obtain ⟨hw, ht, hb⟩ := h
  refine ⟨?_, ?_, ?_⟩
  · intro c hc
    rw [applyOp_wires] at hc
    rcases List.mem_append.mp hc with hc | hc
    · exact hw c hc
    · rw [List.mem_singleton] at hc
      subst hc
      exact gmTag_primCard o _ _
  · intro c hc t hct
    rw [applyOp_transforms] at hc
    rw [applyOp_tag]
    rcases List.mem_append.mp hc with hc | hc
    · rcases List.mem_append.mp hc with hc | hc
      · have := ht c hc t hct
        omega
      · have := hb c hc t hct
        omega
    · have := gmTag_placements o (m.tag + 1) c hc
      rw [this] at hct
      injection hct with h'
      omega
  · intro c hc t hct
    rw [applyOp_transformBuffer] at hc
    rw [applyOp_tag]
    have := gmTag_restorations o (m.tag + 2) c hc
    rw [this] at hct
    injection hct with h'
    omega

theorem tagInv_applyOps (ops : List Op) : ∀ m : Model, TagInv m → TagInv (m.applyOps ops) := by
  induction ops with
  | nil => intro m h; exact h
  | cons o t ih =>
    intro m h
    rw [applyOps_cons]
    exact ih _ (tagInv_applyOp m o h)

/-- C2: if the last append call before finalization is an arc or a helix, the
four restoration transforms it queued (tagged one past the highest tag ever
assigned to a primitive, i.e. `ops.length + 1`) never appear in the finalized
deck: no record of the deck is a transform carrying that first-tag field. -/
theorem C2_no_dangling_restoration (wr : ℚ) (wl fr : Option ℚ) (vf : ℚ)
    (ops : List Op) (o : Op) (start stepSize stepCount : ℚ)
    (hlast : ops.getLast? = some o) (harc : o.isArcOrHelix = true) :
    ∀ c ∈ (((mkModel wr wl fr vf).applyOps ops).getTextCards start stepSize stepCount).1,
      c.gmTag ≠ some ((ops.length : ℤ) + 1) := by
  intro c hc heq
  obtain ⟨hw, ht, -⟩ := tagInv_applyOps ops _ (tagInv_mkModel wr wl fr vf)
  have htag : ((mkModel wr wl fr vf).applyOps ops).tag = (ops.length : ℤ) := by
    rw [applyOps_tag]
    have h0 : (mkModel wr wl fr vf).tag = 0 := rfl
    rw [h0]
    ring
  simp only [Model.getTextCards] at hc
  rcases List.mem_append.mp hc with hc' | hc'
  · rcases List.mem_append.mp hc' with hc'' | hc''
    · rw [hw c hc''] at heq
      exact Option.noConfusion heq
    · have := ht c hc'' _ heq
      omega
  · simp only [List.mem_cons, List.not_mem_nil, or_false] at hc'
    rcases hc' with rfl | rfl | rfl | rfl | rfl <;> simp [Card.gmTag] at heq

/-- Witness for C2: a single arc as the final (and only) append; its placement
transform, a record of the finalized deck, does not carry first-tag 2 (one
past the only assigned tag). -/
theorem C2_no_dangling_restoration_witness :
    (Card.gm 0 0 0 0 0 0 1).gmTag
      ≠ some (([Op.arc 8 1 0 90 (⟨0, 0, 0⟩ : Rotation) (⟨0, 0, 0⟩ : Point)].length : ℤ) + 1) :=
  C2_no_dangling_restoration 1 none none 1 [Op.arc 8 1 0 90 ⟨0, 0, 0⟩ ⟨0, 0, 0⟩]
    (Op.arc 8 1 0 90 ⟨0, 0, 0⟩ ⟨0, 0, 0⟩) 1 1 1 rfl rfl
    (Card.gm 0 0 0 0 0 0 1) (by decide)

/-! ### C3: ordering of placement and restoration transforms -/

/-- C3 counterexample: in the deck finalized from an arc followed by a wire,
the wire's primitive record is NOT preceded by the arc's flushed restoration
transforms - the restorations are present, the wire record is present, yet no
restoration occurs before the wire record, because the finalized output lists
every primitive record before the whole transform stream. -/
theorem C3_counterexample :
    Card.gm 0 0 0 (-4) (-5) (-6) 2 ∈
      ((((mkModel 1 none none 1).addArc 8 1 0 90 ⟨1, 2, 3⟩ ⟨4, 5, 6⟩).addWire 8
          ⟨0, 0, 0⟩ ⟨7, 8, 9⟩).getTextCards 1 1 1).1 ∧
    Card.gw 2 8 0 0 0 7 8 9 1 ∈
      ((((mkModel 1 none none 1).addArc 8 1 0 90 ⟨1, 2, 3⟩ ⟨4, 5, 6⟩).addWire 8
          ⟨0, 0, 0⟩ ⟨7, 8, 9⟩).getTextCards 1 1 1).1 ∧
    ¬ Before
        ((((mkModel 1 none none 1).addArc 8 1 0 90 ⟨1, 2, 3⟩ ⟨4, 5, 6⟩).addWire 8
            ⟨0, 0, 0⟩ ⟨7, 8, 9⟩).getTextCards 1 1 1).1
        (Card.gm 0 0 0 (-4) (-5) (-6) 2) (Card.gw 2 8 0 0 0 7 8 9 1) := by
  decide

/-- C3 (amended): an arc/helix append at tag `T`, followed by another append
call, contributes to the permanent transform stream, in order: its placement
transform (tag `T`), then its four restoration transforms (tag `T + 1`), then
whatever transforms the second call itself places (also at tag `T + 1`).  The
second element's primitive record, however, is emitted into the geometry
buffer, which wholly precedes the transform stream in the finalized deck. -/
theorem C3_transform_stream_order (wr : ℚ) (wl fr : Option ℚ) (vf : ℚ)
    (l : List Op) (a b : Op) (ha : a.isArcOrHelix = true) :
    ((mkModel wr wl fr vf).applyOps (l ++ [a, b])).transforms
      = ((mkModel wr wl fr vf).applyOps l).transforms
        ++ ((mkModel wr wl fr vf).applyOps l).transformBuffer
        ++ a.placements (((mkModel wr wl fr vf).applyOps l).tag + 1)
        ++ a.restorations (((mkModel wr wl fr vf).applyOps l).tag + 2)
        ++ b.placements (((mkModel wr wl fr vf).applyOps l).tag + 2)
    ∧ ((mkModel wr wl fr vf).applyOps (l ++ [a, b])).wires
      = ((mkModel wr wl fr vf).applyOps l).wires
        ++ [a.primCard (((mkModel wr wl fr vf).applyOps l).tag + 1) wr,
            b.primCard (((mkModel wr wl fr vf).applyOps l).tag + 2) wr] := by
  have hstep : (mkModel wr wl fr vf).applyOps (l ++ [a, b])
      = applyOp (applyOp ((mkModel wr wl fr vf).applyOps l) a) b := by
    rw [applyOps_append]
    rfl
  have hrad : ((mkModel wr wl fr vf).applyOps l).wireRadius = wr := by
    rw [applyOps_wireRadius]
    rfl
  have harith : ∀ t : ℤ, t + 1 + 1 = t + 2 := by
    intro t
    ring
  constructor
  · rw [hstep, applyOp_transforms, applyOp_transforms, applyOp_transformBuffer,
      applyOp_tag]
    simp [List.append_assoc, harith]
  · rw [hstep, applyOp_wires, applyOp_wires, applyOp_tag, applyOp_wireRadius, hrad]
    simp [List.append_assoc, harith]

/-- Witness for C3 (amended): one arc then one wire on a fresh model. -/
theorem C3_transform_stream_order_witness :
    ((mkModel 1 none none 1).applyOps
        ([] ++ [Op.arc 8 1 0 90 ⟨1, 2, 3⟩ ⟨4, 5, 6⟩, Op.wire 8 ⟨0, 0, 0⟩ ⟨7, 8, 9⟩])).transforms
      = ((mkModel 1 none none 1).applyOps []).transforms
        ++ ((mkModel 1 none none 1).applyOps []).transformBuffer
        ++ (Op.arc 8 1 0 90 ⟨1, 2, 3⟩ ⟨4, 5, 6⟩).placements
            (((mkModel 1 none none 1).applyOps []).tag + 1)
        ++ (Op.arc 8 1 0 90 ⟨1, 2, 3⟩ ⟨4, 5, 6⟩).restorations
            (((mkModel 1 none none 1).applyOps []).tag + 2)
        ++ (Op.wire 8 ⟨0, 0, 0⟩ ⟨7, 8, 9⟩).placements
            (((mkModel 1 none none 1).applyOps []).tag + 2)
    ∧ ((mkModel 1 none none 1).applyOps
        ([] ++ [Op.arc 8 1 0 90 ⟨1, 2, 3⟩ ⟨4, 5, 6⟩, Op.wire 8 ⟨0, 0, 0⟩ ⟨7, 8, 9⟩])).wires
      = ((mkModel 1 none none 1).applyOps []).wires
        ++ [(Op.arc 8 1 0 90 ⟨1, 2, 3⟩ ⟨4, 5, 6⟩).primCard
              (((mkModel 1 none none 1).applyOps []).tag + 1) 1,
            (Op.wire 8 ⟨0, 0, 0⟩ ⟨7, 8, 9⟩).primCard
              (((mkModel 1 none none 1).applyOps []).tag + 2) 1] :=
  C3_transform_stream_order 1 none none 1 [] _ _ rfl

/-! ### C5: feedpoint selection -/

/-- C5: on a model with at least one appended element, `feedAtStart` records
the excitation point as (most recently assigned tag, segment 1) and
`feedAtMiddle` as (most recently assigned tag, `⌊segments/2⌋ + 1` of the most
recent element); the most recently assigned tag is the number of appends.  In
particular after a 24-segment wire, `feedAtStart` yields segment 1 and
`feedAtMiddle` yields 13. -/
theorem C5_feedpoints (wr : ℚ) (wl fr : Option ℚ) (vf : ℚ) (ops : List Op) (o : Op)
    (p1 p2 : Point) :
    (((mkModel wr wl fr vf).applyOps (ops ++ [o])).feedAtStart.EX_tag
        = ((mkModel wr wl fr vf).applyOps (ops ++ [o])).tag
      ∧ ((mkModel wr wl fr vf).applyOps (ops ++ [o])).feedAtStart.EX_segment = 1)
    ∧ (((mkModel wr wl fr vf).applyOps (ops ++ [o])).feedAtMiddle.EX_tag
        = ((mkModel wr wl fr vf).applyOps (ops ++ [o])).tag
      ∧ ((mkModel wr wl fr vf).applyOps (ops ++ [o])).feedAtMiddle.EX_segment
        = Int.fdiv o.segments 2 + 1)
    ∧ ((mkModel wr wl fr vf).applyOps (ops ++ [o])).tag = (ops.length : ℤ) + 1
    ∧ ((mkModel wr wl fr vf).addWire 24 p1 p2).feedAtStart.EX_segment = 1
    ∧ ((mkModel wr wl fr vf).addWire 24 p1 p2).feedAtMiddle.EX_segment = 13 := by
  have hstep : (mkModel wr wl fr vf).applyOps (ops ++ [o])
      = applyOp ((mkModel wr wl fr vf).applyOps ops) o := by
    rw [applyOps_append]
    rfl
  refine ⟨⟨rfl, rfl⟩, ⟨rfl, ?_⟩, ?_, rfl, ?_⟩
  · show ((mkModel wr wl fr vf).applyOps (ops ++ [o])).middle = Int.fdiv o.segments 2 + 1
    rw [hstep, applyOp_middle]
  · rw [applyOps_tag]
    have h0 : (mkModel wr wl fr vf).tag = 0 := rfl
    rw [h0]
    simp
  · show ((mkModel wr wl fr vf).addWire 24 p1 p2).middle = 13
    show Int.fdiv 24 2 + 1 = 13
    decide

/-! ### C6: finalization with no feedpoint set -/

/-- C6 counterexample: with elements appended but no feedpoint ever set,
`getText` does not fail - it returns a deck that contains an excitation record
with tag 0 and segment 0. -/
theorem C6_counterexample :
    Card.ex 0 0 ∈
      (((mkModel 1 none none 1).addWire 24 ⟨0, 0, 0⟩ ⟨0, 0, 1⟩).getTextCards 1089 1 40).1 := by
  decide

/-- C6 (amended): `getText` never fails; on a model built by any sequence of
append calls with no feedpoint call, the finalized deck contains an excitation
record with tag 0 and segment 0 (the constructor's initial values). -/
theorem C6_zero_tag_excitation (wr : ℚ) (wl fr : Option ℚ) (vf : ℚ) (ops : List Op)
    (start stepSize stepCount : ℚ) :
    Card.ex 0 0 ∈
      (((mkModel wr wl fr vf).applyOps ops).getTextCards start stepSize stepCount).1 := by
  have h1 : ((mkModel wr wl fr vf).applyOps ops).EX_tag = 0 := by
    rw [applyOps_EX_tag]
    rfl
  have h2 : ((mkModel wr wl fr vf).applyOps ops).EX_segment = 0 := by
    rw [applyOps_EX_segment]
    rfl
  simp [Model.getTextCards, h1, h2]

/-! ### C9: repeating finalization -/

/-- C9 counterexample: invoking `getText` a second time, on the state the
first invocation returned, yields exactly the same deck text - the second
result does not differ from the first. -/
theorem C9_counterexample :
    ((((mkModel 1 none none 1).addWire 24 ⟨0, 0, 0⟩ ⟨0, 0, 1⟩).getText 1 1 1).2.getText 1 1 1).1
      = (((mkModel 1 none none 1).addWire 24 ⟨0, 0, 0⟩ ⟨0, 0, 1⟩).getText 1 1 1).1 := rfl

/-- C9 (amended): finalization is idempotent: `getText` builds its footer
locally and assigns nothing to the model, so it returns the state unchanged,
and a second invocation returns a deck identical to the first - no duplicate
trailing cards are appended. -/
theorem C9_finalize_idempotent (m : Model) (start stepSize stepCount : ℚ) :
    (m.getText start stepSize stepCount).2 = m ∧
    ((m.getText start stepSize stepCount).2.getText start stepSize stepCount).1
      = (m.getText start stepSize stepCount).1 :=
  ⟨rfl, rfl⟩

/-! ### C10: wavelength/frequency derivation at construction -/

/-- C10: constructing with both a non-zero wavelength and a non-zero frequency
stores both exactly as given (no derivation, no consistency check);
constructing with neither leaves both unset without error; with exactly one
supplied, the other is derived as `velocityfactor * 3e8 / supplied`. -/
theorem C10_wavelength_frequency (r V W F : ℚ) (hW : W ≠ 0) (hF : F ≠ 0) :
    ((mkModel r (some W) (some F) V).wavelength = some W
      ∧ (mkModel r (some W) (some F) V).frequency = some F)
    ∧ ((mkModel r none none V).wavelength = none
      ∧ (mkModel r none none V).frequency = none)
    ∧ ((mkModel r (some W) none V).wavelength = some W
      ∧ (mkModel r (some W) none V).frequency = some (V * 3e8 / W))
    ∧ ((mkModel r none (some F) V).wavelength = some (V * 3e8 / F)
      ∧ (mkModel r none (some F) V).frequency = some F) := by
  refine ⟨⟨?_, ?_⟩, ⟨?_, ?_⟩, ⟨?_, ?_⟩, ⟨?_, ?_⟩⟩ <;>
    simp [mkModel, truthy, bne_iff_ne, hW, hF]

/-- Witness for C10 at `r = 1`, `V = 1`, `W = 2`, `F = 3`. -/
theorem C10_wavelength_frequency_witness :
    ((mkModel 1 (some 2) (some 3) 1).wavelength = some 2
      ∧ (mkModel 1 (some 2) (some 3) 1).frequency = some 3)
    ∧ ((mkModel 1 none none 1).wavelength = none
      ∧ (mkModel 1 none none 1).frequency = none)
    ∧ ((mkModel 1 (some 2) none 1).wavelength = some 2
      ∧ (mkModel 1 (some 2) none 1).frequency = some (1 * 3e8 / 2))
    ∧ ((mkModel 1 none (some 3) 1).wavelength = some (1 * 3e8 / 3)
      ∧ (mkModel 1 none (some 3) 1).frequency = some 3) :=
  C10_wavelength_frequency 1 1 2 3 (by norm_num) (by norm_num)

/-! ### C7 and C8: the AWG conversion -/

/-- C7 counterexample: at gauge 0, `AWG` does not return the radius
(half of `exp(2.1104 - 0.11594*0) * 1e-3`); it returns the full diameter. -/
theorem C7_counterexample :
    AWG (.int 0) ≠ .ok (Real.exp (2.1104 - 0.11594 * ((0 : ℤ) : ℝ)) * 1e-3 / 2) := by
  intro h
  have hA : AWG (.int 0) = .ok (Real.exp (2.1104 - 0.11594 * ((0 : ℤ) : ℝ)) * 1e-3) := by
    norm_num [AWG]
  rw [hA] at h
  injection h with h2
  have hpos : 0 < Real.exp (2.1104 - 0.11594 * ((0 : ℤ) : ℝ)) := Real.exp_pos _
  nlinarith [hpos, h2]

/-- C7 (amended): for every integer gauge in `[-3, 40]`, `AWG` returns the
wire *diameter* `exp(2.1104 - 0.11594*n) * 1e-3` meters (callers halve it to
obtain the radius); the returned value is positive and strictly decreasing as
the gauge increases. -/
theorem C7_awg_diameter :
    (∀ n : ℤ, -3 ≤ n → n ≤ 40 →
      AWG (.int n) = .ok (Real.exp (2.1104 - 0.11594 * (n : ℝ)) * 1e-3)
        ∧ 0 < Real.exp (2.1104 - 0.11594 * (n : ℝ)) * 1e-3)
    ∧ ∀ n m : ℤ, n < m →
        Real.exp (2.1104 - 0.11594 * (m : ℝ)) * 1e-3
          < Real.exp (2.1104 - 0.11594 * (n : ℝ)) * 1e-3 := by
  constructor
  · intro n h1 h2
    constructor
    · have hcond : ¬ (n < -3 ∨ 40 < n) := by omega
      simp [AWG, hcond]
    · positivity
  · intro n m hnm
    have hcast : (n : ℝ) < (m : ℝ) := by exact_mod_cast hnm
    have harg : 2.1104 - 0.11594 * (m : ℝ) < 2.1104 - 0.11594 * (n : ℝ) := by nlinarith
    exact mul_lt_mul_of_pos_right (Real.exp_lt_exp.mpr harg) (by norm_num)

/-- Witness for C7 (amended) at gauge 14 (the gauge the collinear antenna
script uses). -/
theorem C7_awg_diameter_witness :
    AWG (.int 14) = .ok (Real.exp (2.1104 - 0.11594 * ((14 : ℤ) : ℝ)) * 1e-3)
      ∧ 0 < Real.exp (2.1104 - 0.11594 * ((14 : ℤ) : ℝ)) * 1e-3 :=
  C7_awg_diameter.1 14 (by decide) (by decide)

/-- C8: for every input that is not an integer (any Python float, whatever its
value), or an integer outside `[-3, 40]`, `AWG` fails with one of its two
descriptive errors and never returns a value; nothing is clamped. -/
theorem C8_awg_rejects (v : PyNum)
    (h : v.isFloat = true ∨ ∃ n : ℤ, v = .int n ∧ (n < -3 ∨ 40 < n)) :
    AWG v = .error "AWG must be an integer"
      ∨ AWG v = .error "AWG must be from -3 to 40" := by
  cases v with
  | float x => exact Or.inl rfl
  | int n =>
    rcases h with h | ⟨n', heq, hrange⟩
    · exact absurd h (by simp [PyNum.isFloat])
    · injection heq with h'
      subst h'
      right
      simp only [AWG]
      rw [if_pos hrange]

/-- Witness for C8: a float input is rejected with the type error. -/
theorem C8_awg_rejects_witness :
    AWG (.float 0) = .error "AWG must be an integer"
      ∨ AWG (.float 0) = .error "AWG must be from -3 to 40" :=
  C8_awg_rejects (.float 0) (Or.inl rfl)

/-! ### C4: fixed-width formatting.  Digit-list lemmas first. -/

theorem digitsRev_len_le : ∀ fuel n k : ℕ, n < 10 ^ k → (digitsRev fuel n).length ≤ k := by
  intro fuel
  induction fuel with
  | zero =>
    intro n k _
    simp [digitsRev]
  | succ fuel ih =>
    intro n k h
    by_cases hn : n = 0
    · simp [digitsRev, hn]
    · rw [digitsRev, if_neg hn]
      cases k with
      | zero =>
        norm_num at h
        omega
      | succ k =>
        have hdiv : n / 10 < 10 ^ k := by
          rw [Nat.div_lt_iff_lt_mul (by norm_num)]
          calc n < 10 ^ (k + 1) := h
            _ = 10 ^ k * 10 := by ring
        simp only [List.length_cons]
        exact Nat.succ_le_succ (ih (n / 10) k hdiv)

theorem le_digitsRev_len : ∀ fuel n k : ℕ, n ≤ fuel → 10 ^ k ≤ n →
    k + 1 ≤ (digitsRev fuel n).length := by
  intro fuel
  induction fuel with
  | zero =>
    intro n k h1 h2
    have : 1 ≤ 10 ^ k := Nat.one_le_pow k 10 (by norm_num)
    omega
  | succ fuel ih =>
    intro n k h1 h2
    have hn : n ≠ 0 := by
      have : 1 ≤ 10 ^ k := Nat.one_le_pow k 10 (by norm_num)
      omega
    rw [digitsRev, if_neg hn]
    simp only [List.length_cons]
    cases k with
    | zero => omega
    | succ k =>
      have hd : 10 ^ k ≤ n / 10 := by
        rw [Nat.le_div_iff_mul_le (by norm_num)]
        calc 10 ^ k * 10 = 10 ^ (k + 1) := by ring
          _ ≤ n := h2
      have hf : n / 10 ≤ fuel := by
        have := Nat.div_lt_self (Nat.pos_of_ne_zero hn) (by norm_num : (1:ℕ) < 10)
        omega
      exact Nat.succ_le_succ (ih (n / 10) k hf hd)

theorem digitsRev_digit_lt : ∀ fuel n : ℕ, ∀ d ∈ digitsRev fuel n, d < 10 := by
  intro fuel
  induction fuel with
  | zero =>
    intro n d hd
    simp [digitsRev] at hd
  | succ fuel ih =>
    intro n d hd
    by_cases hn : n = 0
    · simp [digitsRev, hn] at hd
    · rw [digitsRev, if_neg hn] at hd
      rcases List.mem_cons.mp hd with rfl | hd'
      · exact Nat.mod_lt n (by norm_num)
      · exact ih (n / 10) d hd'

theorem natChars_ne_nil (n : ℕ) : natChars n ≠ [] := by
  unfold natChars
  split
  · simp
  · rename_i hn
    have h1 : 10 ^ 0 ≤ n := by
      simpa using Nat.pos_of_ne_zero hn
    have h2 := le_digitsRev_len n n 0 le_rfl h1
    intro hcon
    have h3 : ((digitsRev n n).map Nat.digitChar).reverse.length = 0 := by
      rw [hcon]
      rfl
    simp only [List.length_reverse, List.length_map] at h3
    omega

theorem natChars_len_le (n k : ℕ) (hk : 1 ≤ k) (h : n < 10 ^ k) :
    (natChars n).length ≤ k := by
  unfold natChars
  split
  · simpa using hk
  · simpa using digitsRev_len_le n n k h

theorem natChars_len (n k : ℕ) (h1 : 10 ^ k ≤ n) (h2 : n < 10 ^ (k + 1)) :
    (natChars n).length = k + 1 := by
  have hn : n ≠ 0 := by
    have : 1 ≤ 10 ^ k := Nat.one_le_pow k 10 (by norm_num)
    omega
  unfold natChars
  rw [if_neg hn]
  have hle := digitsRev_len_le n n (k + 1) h2
  have hge := le_digitsRev_len n n k le_rfl h1
  simp only [List.length_reverse, List.length_map]
  omega

theorem natChars_digits (n : ℕ) : ∀ c ∈ natChars n, c.isDigit = true := by
  have h10 : ∀ d : ℕ, d < 10 → (Nat.digitChar d).isDigit = true := by decide
  intro c hc
  unfold natChars at hc
  split at hc
  · rcases List.mem_singleton.mp hc with rfl
    decide
  · rw [List.mem_reverse, List.mem_map] at hc
    obtain ⟨d, hd, rfl⟩ := hc
    exact h10 d (digitsRev_digit_lt n n d hd)

theorem natChars_no_newline (n : ℕ) : '\n' ∉ natChars n := by
  intro hc
  have := natChars_digits n '\n' hc
  simp at this

theorem padChars_len (w : ℕ) (l : List Char) (h : l.length ≤ w) :
    (padChars w l).length = w := by
  unfold padChars
  simp
  omega

theorem padChars_no_newline (w : ℕ) (l : List Char) (h : '\n' ∉ l) :
    '\n' ∉ padChars w l := by
  unfold padChars
  intro hc
  rcases List.mem_append.mp hc with hc' | hc'
  · have := List.eq_of_mem_replicate hc'
    simp at this
  · exact h hc'

/-! ### C4: truncation and rounding lemmas -/

theorem ratTrunc_eq_floor (q : ℚ) (h : 0 ≤ q) : ratTrunc q = ⌊q⌋ := by
  unfold ratTrunc
  rw [Rat.floor_def]
  exact Int.tdiv_eq_ediv (Rat.num_nonneg.mpr h) (Int.natCast_nonneg q.den)

theorem ratTrunc_eq_ceil (q : ℚ) (h : q < 0) : ratTrunc q = ⌈q⌉ := by
  have hneg : ratTrunc q = -(ratTrunc (-q)) := by
    unfold ratTrunc
    rw [Rat.neg_num, Rat.neg_den, Int.neg_tdiv]
    simp
  rw [hneg, ratTrunc_eq_floor (-q) (by linarith), Int.floor_neg]
  simp

theorem floor_le_rne (q : ℚ) : ⌊q⌋ ≤ rne q := by
  unfold rne
  split_ifs <;> omega

theorem rne_le_ceil (q : ℚ) : rne q ≤ ⌈q⌉ := by
  have hfc := Int.floor_le_ceil q
  have hlt : (1 : ℚ)/2 ≤ q - ⌊q⌋ → ⌊q⌋ + 1 ≤ ⌈q⌉ := by
    intro h
    have hq : (⌊q⌋ : ℚ) < q := by linarith
    have := Int.lt_ceil.mpr hq
    omega
  unfold rne
  split_ifs with h1 h2 h3
  · omega
  · exact hlt (by linarith)
  · omega
  · exact hlt (by linarith)

theorem mantissa_bounds (q : ℚ) (hq : q ≠ 0) :
    10 ^ 5 ≤ rne (|q| * 10 ^ ((5 : ℤ) - Int.log 10 |q|)) ∧
      rne (|q| * 10 ^ ((5 : ℤ) - Int.log 10 |q|)) ≤ 10 ^ 6 := by
  have hpos : (0 : ℚ) < |q| := abs_pos.mpr hq
  have h1 : ((10 : ℕ) : ℚ) ^ Int.log 10 |q| ≤ |q| :=
    Int.zpow_log_le_self (by norm_num) hpos
  have h2 : |q| < ((10 : ℕ) : ℚ) ^ (Int.log 10 |q| + 1) :=
    Int.lt_zpow_succ_log_self (by norm_num) |q|
  set e := Int.log 10 |q| with he
  have hb : ((10 : ℕ) : ℚ) = (10 : ℚ) := by norm_num
  rw [hb] at h1 h2
  have hzpos : (0 : ℚ) < 10 ^ ((5 : ℤ) - e) := by positivity
  have hx1 : (100000 : ℚ) ≤ |q| * 10 ^ ((5 : ℤ) - e) := by
    have hm := mul_le_mul_of_nonneg_right h1 (le_of_lt hzpos)
    calc (100000 : ℚ) = 10 ^ (5 : ℤ) := by norm_num
      _ = 10 ^ e * 10 ^ ((5 : ℤ) - e) := by
          rw [← zpow_add₀ (by norm_num : (10 : ℚ) ≠ 0)]
          congr 1
          ring
      _ ≤ |q| * 10 ^ ((5 : ℤ) - e) := hm
  have hx2 : |q| * 10 ^ ((5 : ℤ) - e) < (1000000 : ℚ) := by
    have hm := mul_lt_mul_of_pos_right h2 hzpos
    calc |q| * 10 ^ ((5 : ℤ) - e) < 10 ^ (e + 1) * 10 ^ ((5 : ℤ) - e) := hm
      _ = 10 ^ (6 : ℤ) := by
          rw [← zpow_add₀ (by norm_num : (10 : ℚ) ≠ 0)]
          congr 1
          ring
      _ = 1000000 := by norm_num
  constructor
  · have hfl : (10 ^ 5 : ℤ) ≤ ⌊|q| * 10 ^ ((5 : ℤ) - e)⌋ := by
      rw [Int.le_floor]
      push_cast
      convert hx1 using 1
    exact le_trans hfl (floor_le_rne _)
  · have hcl : ⌈|q| * 10 ^ ((5 : ℤ) - e)⌉ ≤ 10 ^ 6 := by
      rw [Int.ceil_le]
      push_cast
      linarith
    exact le_trans (rne_le_ceil _) hcl

/-! ### C4: shape of the rendered fields -/

theorem noNL_append {a b : List Char} (ha : '\n' ∉ a) (hb : '\n' ∉ b) :
    '\n' ∉ a ++ b := by
  intro hc
  rcases List.mem_append.mp hc with h | h
  · exact ha h
  · exact hb h

theorem noNL_cons {c : Char} {l : List Char} (hc : c ≠ '\n') (hl : '\n' ∉ l) :
    '\n' ∉ c :: l := by
  intro h
  rcases List.mem_cons.mp h with h | h
  · exact hc h.symm
  · exact hl h

theorem le_natChars_len (n k : ℕ) (h : 10 ^ k ≤ n) : k + 1 ≤ (natChars n).length := by
  have hn : n ≠ 0 := by
    have : 1 ≤ 10 ^ k := Nat.one_le_pow k 10 (by norm_num)
    omega
  unfold natChars
  rw [if_neg hn]
  simp only [List.length_reverse, List.length_map]
  exact le_digitsRev_len n n k le_rfl h

theorem decChars_len (q : ℚ) (h1 : -100000 < ratTrunc q) (h2 : ratTrunc q < 1000000) :
    (decChars q).length = 6 := by
  unfold decChars
  apply padChars_len
  have e5 : (10 : ℕ) ^ 5 = 100000 := by norm_num
  have e6 : (10 : ℕ) ^ 6 = 1000000 := by norm_num
  by_cases hq : ratTrunc q < 0
  · rw [if_pos hq]
    simp only [List.length_cons]
    have h5 : (ratTrunc q).natAbs < 10 ^ 5 := by omega
    have := natChars_len_le (ratTrunc q).natAbs 5 (by norm_num) h5
    omega
  · rw [if_neg hq]
    have h6 : (ratTrunc q).natAbs < 10 ^ 6 := by omega
    exact natChars_len_le (ratTrunc q).natAbs 6 (by norm_num) h6

theorem decChars_shape (q : ℚ) :
    ∃ (k : ℕ) (ds : List Char),
      decChars q = List.replicate k ' ' ++ ds ∧ ds ≠ []
      ∧ ((0 ≤ ratTrunc q ∧ ∀ c ∈ ds, c.isDigit = true)
        ∨ (ratTrunc q < 0 ∧ ∃ ds' : List Char,
            ds = '-' :: ds' ∧ ds' ≠ [] ∧ ∀ c ∈ ds', c.isDigit = true)) := by
  by_cases hq : ratTrunc q < 0
  · refine ⟨6 - ('-' :: natChars (ratTrunc q).natAbs).length,
      '-' :: natChars (ratTrunc q).natAbs, ?_, by simp,
      Or.inr ⟨hq, natChars (ratTrunc q).natAbs, rfl, natChars_ne_nil _,
        natChars_digits _⟩⟩
    unfold decChars
    rw [if_pos hq]
    rfl
  · refine ⟨6 - (natChars (ratTrunc q).natAbs).length,
      natChars (ratTrunc q).natAbs, ?_, natChars_ne_nil _,
      Or.inl ⟨by omega, natChars_digits _⟩⟩
    unfold decChars
    rw [if_neg hq]
    rfl

theorem decChars_no_newline (q : ℚ) : '\n' ∉ decChars q := by
  unfold decChars
  apply padChars_no_newline
  by_cases hq : ratTrunc q < 0
  · rw [if_pos hq]
    exact noNL_cons (by decide) (natChars_no_newline _)
  · rw [if_neg hq]
    exact natChars_no_newline _

theorem expChars_len_le (e : ℤ) (h : e.natAbs ≤ 999) : (expChars e).length ≤ 4 := by
  unfold expChars
  simp only [List.length_cons]
  split_ifs with h10
  · simp only [List.length_cons]
    have h1 : e.natAbs < 10 ^ 1 := by
      norm_num
      exact h10
    have := natChars_len_le e.natAbs 1 (by norm_num) h1
    omega
  · have h3 : e.natAbs < 10 ^ 3 := by
      norm_num
      omega
    have := natChars_len_le e.natAbs 3 (by norm_num) h3
    omega

theorem expChars_shape (e : ℤ) :
    ∃ (esgn : Char) (eds : List Char),
      expChars e = esgn :: eds ∧ (esgn = '+' ∨ esgn = '-')
      ∧ 2 ≤ eds.length ∧ ∀ c ∈ eds, c.isDigit = true := by
  refine ⟨if e < 0 then '-' else '+',
    if e.natAbs < 10 then '0' :: natChars e.natAbs else natChars e.natAbs, rfl, ?_, ?_, ?_⟩
  · by_cases he : e < 0
    · rw [if_pos he]
      right
      rfl
    · rw [if_neg he]
      left
      rfl
  · split_ifs with h10
    · simp only [List.length_cons]
      have h1 := natChars_ne_nil e.natAbs
      have := List.length_pos.mpr h1
      omega
    · push_neg at h10
      have h1 : 10 ^ 1 ≤ e.natAbs := by
        norm_num
        exact h10
      have := le_natChars_len e.natAbs 1 h1
      omega
  · intro c hc
    split_ifs at hc with h10
    · rcases List.mem_cons.mp hc with rfl | hc'
      · decide
      · exact natChars_digits _ c hc'
    · exact natChars_digits _ c hc

theorem expChars_no_newline (e : ℤ) : '\n' ∉ expChars e := by
  unfold expChars
  apply noNL_cons
  · by_cases he : e < 0
    · rw [if_pos he]
      decide
    · rw [if_neg he]
      decide
  · split_ifs with h10
    · exact noNL_cons (by decide) (natChars_no_newline _)
    · exact natChars_no_newline _

theorem sciMantissa_shape (M : ℕ) (h1 : 10 ^ 5 ≤ M) (h2 : M < 10 ^ 6) :
    ∃ (d : Char) (frac : List Char),
      sciMantissaChars M = d :: '.' :: frac ∧ d.isDigit = true
      ∧ frac.length = 5 ∧ ∀ c ∈ frac, c.isDigit = true := by
  have hlen : (natChars M).length = 6 := natChars_len M 5 h1 h2
  obtain ⟨d, rest, hcons⟩ : ∃ d rest, natChars M = d :: rest := by
    cases hnc : natChars M with
    | nil =>
      rw [hnc] at hlen
      simp at hlen
    | cons d rest => exact ⟨d, rest, rfl⟩
  have hd : d ∈ natChars M := by
    rw [hcons]
    exact List.mem_cons_self d rest
  refine ⟨d, rest, ?_, natChars_digits M d hd, ?_, ?_⟩
  · unfold sciMantissaChars
    rw [hcons]
    rfl
  · rw [hcons] at hlen
    simp at hlen
    omega
  · intro c hc
    apply natChars_digits M c
    rw [hcons]
    exact List.mem_cons_of_mem d hc

theorem sciMantissaChars_no_newline (M : ℕ) : '\n' ∉ sciMantissaChars M := by
  unfold sciMantissaChars
  apply noNL_append
  · intro hc
    exact natChars_no_newline M (List.mem_of_mem_take hc)
  · apply noNL_cons (by decide)
    intro hc
    exact natChars_no_newline M (List.mem_of_mem_drop hc)

theorem sciChars_no_newline (q : ℚ) : '\n' ∉ sciChars q := by
  unfold sciChars
  apply padChars_no_newline
  apply noNL_cons
  · by_cases hq : q < 0
    · rw [if_pos hq]
      decide
    · rw [if_neg hq]
      decide
  · split_ifs with h0
    · decide
    · exact noNL_append (sciMantissaChars_no_newline _)
        (noNL_cons (by decide) (expChars_no_newline _))

theorem sciCore_assemble (q : ℚ) (n : ℕ) (e' : ℤ)
    (hn1 : 100000 ≤ n) (hn2 : n < 1000000) (he : e'.natAbs ≤ 999) :
    (padChars 13 ((if q < 0 then '-' else ' ') ::
        (sciMantissaChars n ++ 'E' :: expChars e'))).length = 13 ∧
    ∃ (k : ℕ) (sgn d : Char) (frac : List Char) (esgn : Char) (eds : List Char),
      padChars 13 ((if q < 0 then '-' else ' ') ::
          (sciMantissaChars n ++ 'E' :: expChars e'))
        = List.replicate k ' ' ++ sgn :: d :: '.' :: (frac ++ 'E' :: esgn :: eds)
      ∧ (sgn = ' ' ∨ sgn = '-') ∧ d.isDigit = true ∧ frac.length = 5
      ∧ (∀ c ∈ frac, c.isDigit = true) ∧ (esgn = '+' ∨ esgn = '-')
      ∧ 2 ≤ eds.length ∧ ∀ c ∈ eds, c.isDigit = true := by
  have hn1' : 10 ^ 5 ≤ n := by
    norm_num
    exact hn1
  have hn2' : n < 10 ^ 6 := by
    norm_num
    exact hn2
  obtain ⟨d, frac, hm, hd, hfl, hfd⟩ := sciMantissa_shape n hn1' hn2'
  obtain ⟨esgn, eds, hex, hes, hel, hed⟩ := expChars_shape e'
  have hexlen : (expChars e').length ≤ 4 := expChars_len_le e' he
  have hmlen : (sciMantissaChars n).length = 7 := by
    rw [hm]
    simp [hfl]
  have hinlen : ((if q < 0 then '-' else ' ') ::
      (sciMantissaChars n ++ 'E' :: expChars e')).length ≤ 13 := by
    simp only [List.length_cons, List.length_append, hmlen]
    omega
  have hlist : ((if q < 0 then '-' else ' ') ::
      (sciMantissaChars n ++ 'E' :: expChars e'))
      = (if q < 0 then '-' else ' ') :: d :: '.' :: (frac ++ 'E' :: esgn :: eds) := by
    rw [hm, hex]
    simp
  constructor
  · exact padChars_len _ _ hinlen
  · refine ⟨13 - ((if q < 0 then '-' else ' ') :: d :: '.' ::
        (frac ++ 'E' :: esgn :: eds)).length,
      if q < 0 then '-' else ' ', d, frac, esgn, eds, ?_, ?_, hd, hfl, hfd, hes, hel, hed⟩
    · unfold padChars
      rw [hlist]
    · by_cases hq : q < 0
      · rw [if_pos hq]
        right
        rfl
      · rw [if_neg hq]
        left
        rfl

theorem sciChars_shape (q : ℚ) (h : q = 0 ∨ (Int.log 10 |q|).natAbs ≤ 998) :
    (sciChars q).length = 13 ∧
    ∃ (k : ℕ) (sgn d : Char) (frac : List Char) (esgn : Char) (eds : List Char),
      sciChars q = List.replicate k ' ' ++ sgn :: d :: '.' :: (frac ++ 'E' :: esgn :: eds)
      ∧ (sgn = ' ' ∨ sgn = '-') ∧ d.isDigit = true ∧ frac.length = 5
      ∧ (∀ c ∈ frac, c.isDigit = true) ∧ (esgn = '+' ∨ esgn = '-')
      ∧ 2 ≤ eds.length ∧ ∀ c ∈ eds, c.isDigit = true := by
  by_cases hq : q = 0
  · subst hq
    refine ⟨by decide, 1, ' ', '0', ['0', '0', '0', '0', '0'], '+', ['0', '0'],
      by decide, by decide, by decide, by decide, by decide, by decide, by decide,
      by decide⟩
  · have hlog : (Int.log 10 |q|).natAbs ≤ 998 := h.resolve_left hq
    have hM := mantissa_bounds q hq
    have hM1 : (100000 : ℤ) ≤ rne (|q| * 10 ^ ((5 : ℤ) - Int.log 10 |q|)) := by
      have h1 := hM.1
      norm_num at h1
      exact h1
    have hM2 : rne (|q| * 10 ^ ((5 : ℤ) - Int.log 10 |q|)) ≤ (1000000 : ℤ) := by
      have h2 := hM.2
      norm_num at h2
      exact h2
    by_cases hcarry : rne (|q| * 10 ^ ((5 : ℤ) - Int.log 10 |q|)) = 10 ^ 6
    · have hsci : sciChars q = padChars 13 ((if q < 0 then '-' else ' ') ::
          (sciMantissaChars ((10 ^ 5 : ℤ)).toNat
            ++ 'E' :: expChars (Int.log 10 |q| + 1))) := by
        simp only [sciChars, if_neg hq, if_pos hcarry]
      rw [hsci]
      apply sciCore_assemble
      · norm_num
      · norm_num
      · omega
    · have hsci : sciChars q = padChars 13 ((if q < 0 then '-' else ' ') ::
          (sciMantissaChars (rne (|q| * 10 ^ ((5 : ℤ) - Int.log 10 |q|))).toNat
            ++ 'E' :: expChars (Int.log 10 |q|))) := by
        simp only [sciChars, if_neg hq, if_neg hcarry]
      rw [hsci]
      apply sciCore_assemble
      · omega
      · have hne : rne (|q| * 10 ^ ((5 : ℤ) - Int.log 10 |q|)) ≠ (1000000 : ℤ) := by
          intro hcon
          apply hcarry
          rw [hcon]
          norm_num
        omega
      · omega

theorem render_newline (c : Card) :
    ∃ body : List Char, (render c).data = body ++ ['\n'] ∧ '\n' ∉ body := by
  cases c with
  | gw tag segments x1 y1 z1 x2 y2 z2 radius =>
    refine ⟨'G' :: 'W' :: (decChars (tag : ℚ)
      ++ decChars (segments : ℚ)
      ++ sciChars x1
      ++ sciChars y1
      ++ sciChars z1
      ++ sciChars x2
      ++ sciChars y2
      ++ sciChars z2
      ++ sciChars radius), ?_, ?_⟩
    · have hdata : (render (Card.gw tag segments x1 y1 z1 x2 y2 z2 radius)).data
          = 'G' :: 'W' :: (decChars (tag : ℚ)
            ++ decChars (segments : ℚ)
            ++ sciChars x1
            ++ sciChars y1
            ++ sciChars z1
            ++ sciChars x2
            ++ sciChars y2
            ++ sciChars z2
            ++ sciChars radius ++ ['\n']) := rfl
      rw [hdata]
      simp only [List.cons_append, List.append_assoc]
    · exact noNL_cons (by decide) (noNL_cons (by decide)
        (noNL_append (noNL_append (noNL_append (noNL_append (noNL_append (noNL_append (noNL_append (noNL_append (decChars_no_newline _) (decChars_no_newline _)) (sciChars_no_newline _)) (sciChars_no_newline _)) (sciChars_no_newline _)) (sciChars_no_newline _)) (sciChars_no_newline _)) (sciChars_no_newline _)) (sciChars_no_newline _)))
  | gh tag segments pitch height xzr1 yzr1 xzr2 yzr2 wireRadius =>
    refine ⟨'G' :: 'H' :: (decChars (tag : ℚ)
      ++ decChars (segments : ℚ)
      ++ sciChars pitch
      ++ sciChars height
      ++ sciChars xzr1
      ++ sciChars yzr1
      ++ sciChars xzr2
      ++ sciChars yzr2
      ++ sciChars wireRadius), ?_, ?_⟩
    · have hdata : (render (Card.gh tag segments pitch height xzr1 yzr1 xzr2 yzr2 wireRadius)).data
          = 'G' :: 'H' :: (decChars (tag : ℚ)
            ++ decChars (segments : ℚ)
            ++ sciChars pitch
            ++ sciChars height
            ++ sciChars xzr1
            ++ sciChars yzr1
            ++ sciChars xzr2
            ++ sciChars yzr2
            ++ sciChars wireRadius ++ ['\n']) := rfl
      rw [hdata]
      simp only [List.cons_append, List.append_assoc]
    · exact noNL_cons (by decide) (noNL_cons (by decide)
        (noNL_append (noNL_append (noNL_append (noNL_append (noNL_append (noNL_append (noNL_append (noNL_append (decChars_no_newline _) (decChars_no_newline _)) (sciChars_no_newline _)) (sciChars_no_newline _)) (sciChars_no_newline _)) (sciChars_no_newline _)) (sciChars_no_newline _)) (sciChars_no_newline _)) (sciChars_no_newline _)))
  | ga tag segments arcRadius startAngle endAngle wireRadius =>
    refine ⟨'G' :: 'A' :: (decChars (tag : ℚ)
      ++ decChars (segments : ℚ)
      ++ sciChars arcRadius
      ++ sciChars startAngle
      ++ sciChars endAngle
      ++ sciChars wireRadius
      ++ sciChars 0
      ++ sciChars 0
      ++ sciChars 0), ?_, ?_⟩
    · have hdata : (render (Card.ga tag segments arcRadius startAngle endAngle wireRadius)).data
          = 'G' :: 'A' :: (decChars (tag : ℚ)
            ++ decChars (segments : ℚ)
            ++ sciChars arcRadius
            ++ sciChars startAngle
            ++ sciChars endAngle
            ++ sciChars wireRadius
            ++ sciChars 0
            ++ sciChars 0
            ++ sciChars 0 ++ ['\n']) := rfl
      rw [hdata]
      simp only [List.cons_append, List.append_assoc]
    · exact noNL_cons (by decide) (noNL_cons (by decide)
        (noNL_append (noNL_append (noNL_append (noNL_append (noNL_append (noNL_append (noNL_append (noNL_append (decChars_no_newline _) (decChars_no_newline _)) (sciChars_no_newline _)) (sciChars_no_newline _)) (sciChars_no_newline _)) (sciChars_no_newline _)) (sciChars_no_newline _)) (sciChars_no_newline _)) (sciChars_no_newline _)))
  | gm rotX rotY rotZ trX trY trZ firstTag =>
    refine ⟨'G' :: 'M' :: (decChars 0
      ++ decChars 0
      ++ sciChars rotX
      ++ sciChars rotY
      ++ sciChars rotZ
      ++ sciChars trX
      ++ sciChars trY
      ++ sciChars trZ
      ++ sciChars (firstTag : ℚ)), ?_, ?_⟩
    · have hdata : (render (Card.gm rotX rotY rotZ trX trY trZ firstTag)).data
          = 'G' :: 'M' :: (decChars 0
            ++ decChars 0
            ++ sciChars rotX
            ++ sciChars rotY
            ++ sciChars rotZ
            ++ sciChars trX
            ++ sciChars trY
            ++ sciChars trZ
            ++ sciChars (firstTag : ℚ) ++ ['\n']) := rfl
      rw [hdata]
      simp only [List.cons_append, List.append_assoc]
    · exact noNL_cons (by decide) (noNL_cons (by decide)
        (noNL_append (noNL_append (noNL_append (noNL_append (noNL_append (noNL_append (noNL_append (noNL_append (decChars_no_newline _) (decChars_no_newline _)) (sciChars_no_newline _)) (sciChars_no_newline _)) (sciChars_no_newline _)) (sciChars_no_newline _)) (sciChars_no_newline _)) (sciChars_no_newline _)) (sciChars_no_newline _)))
  | ge =>
    refine ⟨'G' :: 'E' :: (decChars 0
      ++ decChars 0
      ++ sciChars 0
      ++ sciChars 0
      ++ sciChars 0
      ++ sciChars 0
      ++ sciChars 0
      ++ sciChars 0
      ++ sciChars 0), ?_, ?_⟩
    · have hdata : (render (Card.ge)).data
          = 'G' :: 'E' :: (decChars 0
            ++ decChars 0
            ++ sciChars 0
            ++ sciChars 0
            ++ sciChars 0
            ++ sciChars 0
            ++ sciChars 0
            ++ sciChars 0
            ++ sciChars 0 ++ ['\n']) := rfl
      rw [hdata]
      simp only [List.cons_append, List.append_assoc]
    · exact noNL_cons (by decide) (noNL_cons (by decide)
        (noNL_append (noNL_append (noNL_append (noNL_append (noNL_append (noNL_append (noNL_append (noNL_append (decChars_no_newline _) (decChars_no_newline _)) (sciChars_no_newline _)) (sciChars_no_newline _)) (sciChars_no_newline _)) (sciChars_no_newline _)) (sciChars_no_newline _)) (sciChars_no_newline _)) (sciChars_no_newline _)))
  | fr start stepSize stepCount =>
    refine ⟨'F' :: 'R' :: (decChars 0
      ++ decChars stepCount
      ++ decChars 0
      ++ decChars 0
      ++ sciChars start
      ++ sciChars stepSize), ?_, ?_⟩
    · have hdata : (render (Card.fr start stepSize stepCount)).data
          = 'F' :: 'R' :: (decChars 0
            ++ decChars stepCount
            ++ decChars 0
            ++ decChars 0
            ++ sciChars start
            ++ sciChars stepSize ++ ['\n']) := rfl
      rw [hdata]
      simp only [List.cons_append, List.append_assoc]
    · exact noNL_cons (by decide) (noNL_cons (by decide)
        (noNL_append (noNL_append (noNL_append (noNL_append (noNL_append (decChars_no_newline _) (decChars_no_newline _)) (decChars_no_newline _)) (decChars_no_newline _)) (sciChars_no_newline _)) (sciChars_no_newline _)))
  | ex tag segment =>
    refine ⟨'E' :: 'X' :: (decChars 0
      ++ decChars (tag : ℚ)
      ++ decChars (segment : ℚ)
      ++ decChars 0
      ++ sciChars 1
      ++ sciChars 0
      ++ sciChars 0
      ++ sciChars 0
      ++ sciChars 0
      ++ sciChars 0), ?_, ?_⟩
    · have hdata : (render (Card.ex tag segment)).data
          = 'E' :: 'X' :: (decChars 0
            ++ decChars (tag : ℚ)
            ++ decChars (segment : ℚ)
            ++ decChars 0
            ++ sciChars 1
            ++ sciChars 0
            ++ sciChars 0
            ++ sciChars 0
            ++ sciChars 0
            ++ sciChars 0 ++ ['\n']) := rfl
      rw [hdata]
      simp only [List.cons_append, List.append_assoc]
    · exact noNL_cons (by decide) (noNL_cons (by decide)
        (noNL_append (noNL_append (noNL_append (noNL_append (noNL_append (noNL_append (noNL_append (noNL_append (noNL_append (decChars_no_newline _) (decChars_no_newline _)) (decChars_no_newline _)) (decChars_no_newline _)) (sciChars_no_newline _)) (sciChars_no_newline _)) (sciChars_no_newline _)) (sciChars_no_newline _)) (sciChars_no_newline _)) (sciChars_no_newline _)))
  | rp =>
    refine ⟨'R' :: 'P' :: (decChars 0
      ++ decChars 37
      ++ decChars 37
      ++ decChars 0
      ++ sciChars 0
      ++ sciChars 0
      ++ sciChars 10
      ++ sciChars 10), ?_, ?_⟩
    · have hdata : (render (Card.rp)).data
          = 'R' :: 'P' :: (decChars 0
            ++ decChars 37
            ++ decChars 37
            ++ decChars 0
            ++ sciChars 0
            ++ sciChars 0
            ++ sciChars 10
            ++ sciChars 10 ++ ['\n']) := rfl
      rw [hdata]
      simp only [List.cons_append, List.append_assoc]
    · exact noNL_cons (by decide) (noNL_cons (by decide)
        (noNL_append (noNL_append (noNL_append (noNL_append (noNL_append (noNL_append (noNL_append (decChars_no_newline _) (decChars_no_newline _)) (decChars_no_newline _)) (decChars_no_newline _)) (sciChars_no_newline _)) (sciChars_no_newline _)) (sciChars_no_newline _)) (sciChars_no_newline _)))
  | en =>
    refine ⟨['E', 'N'], by decide, by decide⟩

/-- C4 counterexample: the integer formatter does not always produce exactly
6 characters: `dec(1234567)` (e.g. a segment-count field of a wire record) is
7 characters wide (`"1234567"`), because the Python format width is only a
minimum. -/
theorem C4_counterexample : (dec (1234567 : ℚ)).length ≠ 6 := by
  decide

/-- C4 (amended): each integer field is the argument truncated toward zero
(floor for nonnegative, ceiling for negative), right-justified with space
fill, its digits prefixed by a minus sign exactly when negative (the format
spec has no sign option, so nonnegative values get no sign position); it
occupies exactly 6 characters whenever the truncated value lies strictly
between -100000 and 1000000 (beyond that the field widens, as the
counterexample shows); each real field is right-justified scientific notation
with a sign position, one leading digit, exactly 5 digits after the decimal
point, and a signed two-or-more-digit exponent, occupying exactly 13
characters for every value whose decimal exponent magnitude is at most 998
(every IEEE double lies far inside this range); and every rendered record is a
newline-free body terminated by a single newline. -/
theorem C4_fixed_width_formatting :
    (∀ q : ℚ, -100000 < ratTrunc q → ratTrunc q < 1000000 → (dec q).length = 6)
    ∧ (∀ q : ℚ, ∃ (k : ℕ) (ds : List Char),
        (dec q).data = List.replicate k ' ' ++ ds ∧ ds ≠ []
        ∧ ((0 ≤ ratTrunc q ∧ ∀ c ∈ ds, c.isDigit = true)
          ∨ (ratTrunc q < 0 ∧ ∃ ds' : List Char,
              ds = '-' :: ds' ∧ ds' ≠ [] ∧ ∀ c ∈ ds', c.isDigit = true)))
    ∧ (∀ q : ℚ, 0 ≤ q → ratTrunc q = ⌊q⌋)
    ∧ (∀ q : ℚ, q < 0 → ratTrunc q = ⌈q⌉)
    ∧ (∀ q : ℚ, q = 0 ∨ (Int.log 10 |q|).natAbs ≤ 998 →
        (sci q).length = 13
        ∧ ∃ (k : ℕ) (sgn d : Char) (frac : List Char) (esgn : Char) (eds : List Char),
          (sci q).data = List.replicate k ' ' ++ sgn :: d :: '.'
              :: (frac ++ 'E' :: esgn :: eds)
          ∧ (sgn = ' ' ∨ sgn = '-') ∧ d.isDigit = true ∧ frac.length = 5
          ∧ (∀ c ∈ frac, c.isDigit = true) ∧ (esgn = '+' ∨ esgn = '-')
          ∧ 2 ≤ eds.length ∧ ∀ c ∈ eds, c.isDigit = true)
    ∧ (∀ c : Card, ∃ body : List Char,
        (render c).data = body ++ ['\n'] ∧ '\n' ∉ body) := by
  refine ⟨?_, ?_, ratTrunc_eq_floor, ratTrunc_eq_ceil, ?_, render_newline⟩
  · intro q h1 h2
    exact decChars_len q h1 h2
  · intro q
    exact decChars_shape q
  · intro q h
    exact sciChars_shape q h

/-- Witness for C4 (amended): the integer field at 3 and the real field at 0. -/
theorem C4_fixed_width_formatting_witness :
    (dec 3).length = 6
    ∧ ((sci 0).length = 13
      ∧ ∃ (k : ℕ) (sgn d : Char) (frac : List Char) (esgn : Char) (eds : List Char),
        (sci 0).data = List.replicate k ' ' ++ sgn :: d :: '.'
            :: (frac ++ 'E' :: esgn :: eds)
        ∧ (sgn = ' ' ∨ sgn = '-') ∧ d.isDigit = true ∧ frac.length = 5
        ∧ (∀ c ∈ frac, c.isDigit = true) ∧ (esgn = '+' ∨ esgn = '-')
        ∧ 2 ≤ eds.length ∧ ∀ c ∈ eds, c.isDigit = true) :=
  ⟨C4_fixed_width_formatting.1 3 (by decide) (by decide),
   C4_fixed_width_formatting.2.2.2.2.1 0 (Or.inl rfl)⟩

end Nec2
